import Mathlib

/-!
Verification of the icalaggregator core (`icalaggregator.py`) against its
specification.

Instants are modelled as integers counting seconds, in UTC, from midnight at
the start of year 1 (the proleptic Gregorian epoch used by Python's
`datetime`).  A timezone is modelled as a map from a UTC instant to its UTC
offset in seconds, and `datetime.astimezone(tz).date()` becomes the civil-day
number of the offset-shifted instant: two datetimes have equal `.date()`
exactly when their civil-day numbers agree.  Python strings are Lean
`String`s, with the `str` methods used by the source re-implemented over the
underlying character lists.
-/

namespace IcalAggregator

/-- The whitespace characters stripped by Python's `str.rstrip()` and
`str.lstrip()` (with no argument). -/
def pyIsSpace (c : Char) : Bool :=
  c = ' ' || c = '\t' || c = '\n' || c = '\r' || c = '\x0b' || c = '\x0c'

/-- Python `s.rstrip()`: drop trailing whitespace. -/
def rstrip (s : String) : String :=
  ⟨(s.data.reverse.dropWhile pyIsSpace).reverse⟩

/-- Python `s.lstrip()`: drop leading whitespace. -/
def lstrip (s : String) : String :=
  ⟨s.data.dropWhile pyIsSpace⟩

/-- Python `s.startswith(pre)`. -/
def pyStartswith (s pre : String) : Bool :=
  pre.data.isPrefixOf s.data

/-- Python `s[n:]`. -/
def pyDrop (s : String) (n : Nat) : String :=
  ⟨s.data.drop n⟩

/-- One calendar event (`class Event`, icalaggregator.py lines 11-68).  The
`timezone` / `timezone_adjust` configuration stored on each Python `Event` is
identical for every event of an aggregator run, so it is threaded through as
explicit parameters of the operations instead of being stored in the record;
unset fields (`None` in the source) are `none`. -/
structure Event where
  summary : Option String
  start : Option Int
  end_ : Option Int
  location : Option String
deriving DecidableEq

/-- The civil-day number of `t.astimezone(tz).date()` for a UTC instant `t`:
shift `t` by the timezone's offset and take the floor-division day.  Two
instants have equal `.date()` results exactly when these numbers agree. -/
def localDate (tz : Int → Int) (t : Int) : Int :=
  (t + tz t).fdiv 86400

/-- The civil-day number of `t.date()` for a UTC-anchored instant `t`
(the raw UTC date used by `generate_html` for day bucketing). -/
def utcDate (t : Int) : Int :=
  t.fdiv 86400

/-- `Event.validate` (icalaggregator.py lines 26-36): require a truthy
`summary` (set and non-empty), a set `start` and `end`, and that `start` and
`end` fall on the same calendar date in the display timezone `tz`. -/
def Event.validate (tz : Int → Int) (e : Event) : Except String Unit :=
  if e.summary = none ∨ e.summary = some "" then .error "Summary not set"
  else match e.start, e.end_ with
    | none, _ => .error "Start not set"
    | some _, none => .error "End not set"
    | some s, some en =>
      if localDate tz s ≠ localDate tz en then
        .error "Cannot deal with cross-day events"
      else .ok ()

/-- C1: for every Event `e`, `e.validate()` succeeds (returns without
raising) iff `e.summary` is set and non-empty, `e.start` is set, `e.end` is
set, and the calendar date of `e.start` projected into the configured display
timezone equals that of `e.end`; in every other case it raises. -/
theorem validate_ok_iff (tz : Int → Int) (e : Event) :
    e.validate tz = .ok () ↔
      e.summary ≠ none ∧ e.summary ≠ some "" ∧
        ∃ s en, e.start = some s ∧ e.end_ = some en ∧
          localDate tz s = localDate tz en := by
  rcases e with ⟨sm, st, en, loc⟩
  unfold Event.validate
  by_cases hsm : sm = none ∨ sm = some ""
  · simp only [hsm, if_pos]
    constructor
    · intro h; cases h
    · rintro ⟨h1, h2, -⟩
      rcases hsm with h | h
      · exact absurd h h1
      · exact absurd h h2
  · push_neg at hsm
    simp only [hsm.1, hsm.2, ne_eq, not_false_eq_true, true_and, if_neg,
      or_self]
    match st, en with
    | none, _ =>
      simp
    | some s, none =>
      simp
    | some s, some e2 =>
      by_cases hd : localDate tz s ≠ localDate tz e2
      · simp only [if_pos hd]
        constructor
        · intro h; cases h
        · rintro ⟨s', e', hs', he', hdd⟩
          injection hs' with hs'; injection he' with he'
          exact absurd (hs' ▸ he' ▸ hdd) hd
      · push_neg at hd
        simp only [ne_eq, hd, not_true_eq_false, if_false]
        constructor
        · intro _
          exact ⟨s, e2, rfl, rfl, hd⟩
        · intro _; trivial

/-! ### Line Unfolder (`class IcalReader`, icalaggregator.py lines 78-99) -/

/-- `IcalReader.__init__` (line 86): the reader state is the list of physical
lines with trailing whitespace stripped from each
(`[l.rstrip() for l in f.readlines()]`). -/
def mkReader (raws : List String) : List String :=
  raws.map rstrip

/-- The merge loop inside `IcalReader.readline` (lines 92-97): `acc` is the
contents written to the `StringIO` so far; following physical lines are
popped, `lstrip`ped and appended while they begin with a space. -/
def readlineGo (acc : String) : List String → String × List String
  | [] => (acc, [])
  | l :: rest =>
    if pyStartswith l " " then readlineGo (acc ++ lstrip l) rest
    else (acc, l :: rest)

/-- `IcalReader.readline` (lines 88-99): `none` when the input is exhausted,
otherwise the next logical line together with the remaining reader state. -/
def readline : List String → Option String × List String
  | [] => (none, [])
  | l :: rest =>
    let p := readlineGo (lstrip l) rest
    (some p.1, p.2)

/-- Concatenation of a list of strings (no separator). -/
def joinStr : List String → String
  | [] => ""
  | s :: rest => s ++ joinStr rest

theorem readlineGo_spec (rest : List String) : ∀ acc : String,
    readlineGo acc rest =
      (acc ++ joinStr ((rest.takeWhile (fun x => pyStartswith x " ")).map lstrip),
       rest.dropWhile (fun x => pyStartswith x " ")) := by
  induction rest with
  | nil => intro acc; simp [readlineGo, joinStr]
  | cons l rest ih =>
    intro acc
    by_cases h : pyStartswith l " "
    · simp only [readlineGo, h, if_true, ih, List.takeWhile_cons, List.dropWhile_cons,
        List.map_cons, joinStr, String.append_assoc]
    · simp only [readlineGo, h, if_false, List.takeWhile_cons, List.dropWhile_cons,
        Bool.false_eq_true, List.map_nil, joinStr]
    -- when the next line does not begin with a space, nothing more is merged
      simp [h, joinStr]

/-- C5 (amended): every physical line has its trailing whitespace stripped on
construction; `readline` returns the `none` sentinel exactly when the input is
exhausted; and a logical line is the *fully* `lstrip`ped first physical line
followed by the concatenation of the `lstrip`ped continuation lines (all
leading whitespace removed from every physical line, not just a single
leading space of continuations). -/
theorem readline_characterization :
    (∀ raws : List String, mkReader raws = raws.map rstrip) ∧
    (∀ lines : List String, (readline lines).1 = none ↔ lines = []) ∧
    (∀ (l : String) (rest : List String),
       readline (l :: rest) =
         (some (lstrip l ++
            joinStr ((rest.takeWhile (fun x => pyStartswith x " ")).map lstrip)),
          rest.dropWhile (fun x => pyStartswith x " "))) := by
  refine ⟨fun _ => rfl, ?_, ?_⟩
  · intro lines
    cases lines with
    | nil => simp [readline]
    | cons l rest => simp [readline]
  · intro l rest
    simp [readline, readlineGo_spec]

/-- C5 (counterexample): on the physical lines `["A", "  B"]` the unfolder
yields the logical line `"AB"` — the continuation loses *both* leading
spaces — whereas the claimed behavior (strip exactly the single leading
space) would yield `"A B"`. -/
theorem readline_single_space_cex :
    (readline (mkReader ["A", "  B"])).1 = some "AB" ∧
      (readline (mkReader ["A", "  B"])).1 ≠ some ("A" ++ " B") := by
  constructor
  · rfl
  · decide

/-! ### Grid layout (`Aggregator.generate_html` and `_timediff_to_y_pixels`,
icalaggregator.py lines 164-234) -/

/-- `Aggregator._timediff_to_y_pixels` (lines 229-234):
`((t - compareto).seconds/60)*1.7`.  A Python 2 `timedelta` normalizes its
`seconds` component into `[0, 86400)` (floor modulus), `/` on ints is floor
division, and the float literal `1.7` is modelled as the rational `17/10`. -/
def timediffPx (t compareto : Int) : ℚ :=
  ((((t - compareto) % 86400).fdiv 60 : Int) : ℚ) * (17 / 10)

/-- Evaluation helper: once the integer minutes are computed, the pixel value
is that number times `17/10`. -/
theorem timediffPx_eq (t r m : Int) (h : ((t - r) % 86400).fdiv 60 = m) :
    timediffPx t r = (m : ℚ) * (17 / 10) := by
  unfold timediffPx
  rw [h]

/-- `e.start.date()` for the raw UTC-anchored `start` (day bucketing in
`generate_html`, lines 187-189). -/
def evUtcDate (e : Event) : Option Int :=
  e.start.map utcDate

/-- The events whose start falls on UTC date `day`, in list order (the
`if not e.start.date() == day: continue` scans of `generate_html`). -/
def dayEvents (evs : List Event) (day : Int) : List Event :=
  evs.filter (fun e => evUtcDate e = some day)

/-- `firsttime` after the scan at lines 194-199: the `start` of the first
event in list order whose start falls on `day`. -/
def dayFirstStart (evs : List Event) (day : Int) : Option Int :=
  (dayEvents evs day).head?.bind Event.start

/-- `lasttime` after the scan at lines 194-199: the `end` of the *last* event
in list order whose start falls on `day` (each matching event overwrites
`lasttime`). -/
def dayLastEnd (evs : List Event) (day : Int) : Option Int :=
  (dayEvents evs day).getLast?.bind Event.end_

/-- The `schedwrap` height for one day (line 204):
`_timediff_to_y_pixels(lasttime, firsttime) + headersize` with
`headersize = 30`. -/
def dayHeight (evs : List Event) (day : Int) : Option ℚ :=
  match dayFirstStart evs day, dayLastEnd evs day with
  | some f, some l => some (timediffPx l f + 30)
  | _, _ => none

/-- Modelled from the claim wording of C2 (for comparison with `dayHeight`):
the vertical extent from the *minimum* start and *maximum* end over all
events whose start falls on the date. -/
def claimDayHeight (evs : List Event) (day : Int) : Option ℚ :=
  match ((dayEvents evs day).filterMap Event.start).min?,
      ((dayEvents evs day).filterMap Event.end_).max? with
  | some f, some l => some (timediffPx l f + 30)
  | _, _ => none

/-- Python 2 `cmp` on optional instants, as a ≤-test: `None` sorts below any
`datetime`. -/
def optLe : Option Int → Option Int → Bool
  | none, _ => true
  | some _, none => false
  | some a, some b => decide (a ≤ b)

/-- `compare_events` (lines 70-76) as the corresponding ≤-test: comparison is
done only on the start time. -/
def evLe (a b : Event) : Bool :=
  optLe a.start b.start

/-- First event of the 09:00-12:00 / 10:00-10:30 shape: starts first, ends
last. -/
def cexLongEvent : Event :=
  ⟨some "Long", some 0, some 10800, some "RoomA"⟩

/-- Second event: starts later but ends before the first one ends. -/
def cexShortEvent : Event :=
  ⟨some "Short", some 3600, some 5400, some "RoomA"⟩

/-- C2 (counterexample): with a start-sorted list of two events on the same
UTC date — one 0s-10800s, one 3600s-5400s — the code sizes the day from
`firsttime = 0` and `lasttime = 5400` (the end of the *last* event in list
order), giving height `90*1.7 + 30 = 183`, while the claimed
minimum-start/maximum-end rule gives `180*1.7 + 30 = 336`. -/
theorem dayHeight_min_max_cex :
    dayHeight [cexLongEvent, cexShortEvent] 0 = some 183 ∧
      claimDayHeight [cexLongEvent, cexShortEvent] 0 = some 336 ∧
      dayHeight [cexLongEvent, cexShortEvent] 0 ≠
        claimDayHeight [cexLongEvent, cexShortEvent] 0 := by
  have hd : dayHeight [cexLongEvent, cexShortEvent] 0 =
      some (timediffPx 5400 0 + 30) := rfl
  have hc : claimDayHeight [cexLongEvent, cexShortEvent] 0 =
      some (timediffPx 10800 0 + 30) := rfl
  rw [hd, hc, timediffPx_eq 5400 0 90 (by decide),
    timediffPx_eq 10800 0 180 (by decide)]
  refine ⟨by norm_num, by norm_num, ?_⟩
  simp only [ne_eq, Option.some.injEq]
  norm_num

/-- C2 (amended): the vertical extent of a day is computed from the start of
the *first* and the end of the *last* event in list order whose start falls
on that UTC date, and the container height is the pixel distance between
those two plus the 30px header band; when the event list is sorted by start
(as it is after `pull_all`), that first start is the minimum start over the
day's events — but the last end is the end of the latest-*starting* event,
not the maximum end. -/
theorem dayHeight_first_last (evs : List Event) (day : Int) (f l : Int)
    (hf : dayFirstStart evs day = some f) (hl : dayLastEnd evs day = some l) :
    dayHeight evs day = some (timediffPx l f + 30) ∧
      (List.Pairwise (fun a b => evLe a b = true) evs →
        ∀ e ∈ dayEvents evs day, ∀ s : Int, e.start = some s → f ≤ s) := by
  constructor
  · unfold dayHeight
    rw [hf, hl]
  · intro hp e he s hs
    have hp2 : List.Pairwise (fun a b => evLe a b = true) (dayEvents evs day) :=
      hp.filter _
    unfold dayFirstStart at hf
    cases hd : dayEvents evs day with
    | nil => rw [hd] at hf; simp at hf
    | cons e0 t =>
      rw [hd] at hf hp2
      simp only [List.head?_cons, Option.some_bind] at hf
      rw [hd] at he
      rcases List.mem_cons.mp he with he0 | ht
      · subst he0
        rw [hf] at hs
        injection hs with hs
        omega
      · have hrel := (List.pairwise_cons.mp hp2).1 e ht
        unfold evLe at hrel
        rw [hf, hs] at hrel
        unfold optLe at hrel
        exact of_decide_eq_true hrel

/-- C2 (witness for the amended theorem): on the concrete two-event day the
code's height is the pixel distance from `0` to `5400` plus 30. -/
theorem dayHeight_first_last_witness :
    dayHeight [cexLongEvent, cexShortEvent] 0 = some (timediffPx 5400 0 + 30) ∧
      (List.Pairwise (fun a b => evLe a b = true) [cexLongEvent, cexShortEvent] →
        ∀ e ∈ dayEvents [cexLongEvent, cexShortEvent] 0,
          ∀ s : Int, e.start = some s → 0 ≤ s) :=
  dayHeight_first_last [cexLongEvent, cexShortEvent] 0 0 5400 (by decide) (by decide)

/-- The `rooms` map built at lines 184-185: each feed name is mapped to its
index in registration order, later duplicates overwriting earlier entries. -/
def roomsMap (names : List String) (nm : String) : Option Nat :=
  names.enum.foldl (fun acc p => if p.2 = nm then some p.1 else acc) none

/-- The geometry of one emitted session block. -/
structure Block where
  top : ℚ
  left : ℚ
  width : ℚ
  height : ℚ
deriving DecidableEq

/-- The session block emitted for one event (lines 215-223): `top` is the
pixel offset of its start from the day's `firsttime` plus the 30px header,
`left` is `col_width` times the room's column, `width` is `col_width - 2`,
and `height` is the pixel distance from its start to its end minus 2.
A missing field or an unregistered room (a `KeyError` in the source) is
`none`. -/
def blockFor (ridx : String → Option Nat) (firsttime : Int) (e : Event) :
    Option Block :=
  match e.start, e.end_, e.location with
  | some s, some en, some loc =>
    (ridx loc).map (fun (i : Nat) =>
      ⟨timediffPx s firsttime + 30, 150 * (i : ℚ), 150 - 2, timediffPx en s - 2⟩)
  | _, _, _ => none

/-- C9: for instants `t ≥ r` less than a day apart, the vertical pixel
position of `t` relative to `r` is the elapsed seconds floor-divided by 60
(whole minutes) times 1.7; and every event block has
`top = verticalPosition(start, dayFirstStart) + 30`,
`left = columnIndex(location) * 150`, width `148`, and
`height = verticalPosition(end, start) - 2`. -/
theorem timediff_and_block_formulas :
    (∀ t r : Int, r ≤ t → t - r < 86400 →
       timediffPx t r = (((t - r).fdiv 60 : Int) : ℚ) * (17 / 10)) ∧
    (∀ (ridx : String → Option Nat) (ft : Int) (e : Event) (s en : Int)
       (loc : String) (i : Nat),
       e.start = some s → e.end_ = some en → e.location = some loc →
       ridx loc = some i →
       blockFor ridx ft e =
         some ⟨timediffPx s ft + 30, 150 * (i : ℚ), 148,
           timediffPx en s - 2⟩) := by
  constructor
  · intro t r h1 h2
    unfold timediffPx
    rw [Int.emod_eq_of_lt (by omega) (by omega)]
  · intro ridx ft e s en loc i hs hen hloc hi
    unfold blockFor
    rw [hs, hen, hloc]
    simp only [hi, Option.map_some]
    norm_num

/-- C9 (witness): the formulas evaluated on a concrete event in the only
registered room, one hour long, starting one hour into the day. -/
theorem timediff_and_block_formulas_witness :
    timediffPx 3600 0 = (((3600 - 0 : Int).fdiv 60 : Int) : ℚ) * (17 / 10) ∧
      blockFor (roomsMap ["RoomA"]) 0 cexShortEvent =
        some ⟨timediffPx 3600 0 + 30, 150 * ((0 : Nat) : ℚ), 148,
          timediffPx 5400 3600 - 2⟩ :=
  ⟨timediff_and_block_formulas.1 3600 0 (by decide) (by decide),
   timediff_and_block_formulas.2 (roomsMap ["RoomA"]) 0 cexShortEvent 3600 5400
     "RoomA" 0 rfl rfl rfl (by decide)⟩

/-! ### Calendar timestamp codec (`Event._parse_time` / `Event._print_time`,
icalaggregator.py lines 53-65)

`datetime` values are isomorphic to their count of seconds from
0001-01-01 00:00:00 (the proleptic Gregorian epoch, `datetime.MINYEAR`), the
representation used for instants throughout this file; the codec converts
between that count and the calendar fields appearing in the
`YYYYMMDDTHHMMSSZ` text. -/

/-- Gregorian leap-year test. -/
def isLeap (y : Nat) : Bool :=
  (y % 4 == 0 && y % 100 != 0) || y % 400 == 0

/-- Number of days in year `y`. -/
def daysInYear (y : Nat) : Nat :=
  if isLeap y then 366 else 365

/-- The twelve month lengths of a year. -/
def monthLens (leap : Bool) : List Nat :=
  [31, if leap then 29 else 28, 31, 30, 31, 30, 31, 31, 30, 31, 30, 31]

/-- Total days in years `1..k`, so `yearsSum (y - 1)` is the number of days
from the epoch to the start of year `y`. -/
def yearsSum : Nat → Nat
  | 0 => 0
  | k + 1 => yearsSum k + daysInYear (k + 1)

/-- Fuel-driven year extraction: starting at year `y` with `n` days beyond
its start, walk forward one year at a time. -/
def goYear : Nat → Nat → Nat → Nat × Nat
  | 0, y, n => (y, n)
  | fuel + 1, y, n =>
    if n < daysInYear y then (y, n) else goYear fuel (y + 1) (n - daysInYear y)

/-- Split a 0-based day-of-year into a (1-based month, 1-based day) pair by
walking the month lengths. -/
def splitMonths : List Nat → Nat → Nat → Nat × Nat
  | [], m, doy => (m, doy + 1)
  | len :: rest, m, doy =>
    if doy < len then (m, doy + 1) else splitMonths rest (m + 1) (doy - len)

/-- The six calendar fields of a `datetime`. -/
structure DT where
  y : Nat
  mo : Nat
  d : Nat
  h : Nat
  mi : Nat
  s : Nat
deriving DecidableEq

/-- Calendar fields of the instant `t` seconds after 0001-01-01 00:00:00. -/
def fromSecs (t : Nat) : DT :=
  let days := t / 86400
  let rem := t % 86400
  let p := goYear (days / 365 + 1) 1 days
  let q := splitMonths (monthLens (isLeap p.1)) 1 p.2
  ⟨p.1, q.1, q.2, rem / 3600, rem % 3600 / 60, rem % 60⟩

/-- Seconds from 0001-01-01 00:00:00 to the instant with fields `f`. -/
def toSecs (f : DT) : Nat :=
  (yearsSum (f.y - 1) + ((monthLens (isLeap f.y)).take (f.mo - 1)).sum + (f.d - 1))
      * 86400
    + f.h * 3600 + f.mi * 60 + f.s

/-- One second past the last representable `datetime`,
9999-12-31 23:59:59 (`datetime.MAXYEAR` is 9999). -/
def maxSecs : Nat := yearsSum 9999 * 86400

/-- The decimal digit character of `d` (for `d < 10`). -/
def dChar : Nat → Char
  | 0 => '0' | 1 => '1' | 2 => '2' | 3 => '3' | 4 => '4'
  | 5 => '5' | 6 => '6' | 7 => '7' | 8 => '8' | _ => '9'

/-- Numeric value of a digit character. -/
def dVal (c : Char) : Nat := c.toNat - 48

/-- Two-digit zero-padded decimal rendering (`%m`, `%d`, `%H`, `%M`, `%S`). -/
def pad2 (n : Nat) : List Char := [dChar (n / 10 % 10), dChar (n % 10)]

/-- Four-digit zero-padded decimal rendering (`%Y`). -/
def pad4 (n : Nat) : List Char :=
  [dChar (n / 1000 % 10), dChar (n / 100 % 10), dChar (n / 10 % 10), dChar (n % 10)]

/-- `v.strftime("%Y%m%dT%H%M%SZ")` applied to the fields `f`. -/
def formatChars (f : DT) : List Char :=
  pad4 f.y ++ pad2 f.mo ++ pad2 f.d ++ 'T' ::
    (pad2 f.h ++ pad2 f.mi ++ pad2 f.s ++ ['Z'])

/-- `datetime.strptime(v, "%Y%m%dT%H%M%SZ")`: sixteen characters, digits in
the numeric positions, literal `T` and `Z`, with the `datetime` constructor's
range validation on the parsed fields.  `none` models a `ValueError`. -/
def strptimeZ (cs : List Char) : Option DT :=
  match cs with
  | [y1, y2, y3, y4, mo1, mo2, d1, d2, t, h1, h2, mi1, mi2, s1, s2, z] =>
    if t = 'T' ∧ z = 'Z' ∧
        ([y1, y2, y3, y4, mo1, mo2, d1, d2, h1, h2, mi1, mi2, s1, s2].all
          Char.isDigit) = true then
      let y := dVal y1 * 1000 + dVal y2 * 100 + dVal y3 * 10 + dVal y4
      let mo := dVal mo1 * 10 + dVal mo2
      let d := dVal d1 * 10 + dVal d2
      let h := dVal h1 * 10 + dVal h2
      let mi := dVal mi1 * 10 + dVal mi2
      let s := dVal s1 * 10 + dVal s2
      if 1 ≤ y ∧ 1 ≤ mo ∧ mo ≤ 12 ∧ 1 ≤ d ∧
          d ≤ (monthLens (isLeap y)).getD (mo - 1) 0 ∧ h ≤ 23 ∧ mi ≤ 59 ∧ s ≤ 59
      then some ⟨y, mo, d, h, mi, s⟩
      else none
    else none
  | _ => none

/-- Seconds from the epoch to 1900-01-01 00:00:00: the lower end of the
range Python 2's `strftime` accepts. -/
def minFmtSecs : Nat := yearsSum 1899 * 86400

/-- `Event._print_time` (lines 61-65): format a stored UTC instant back into
the fixed `YYYYMMDDTHHMMSSZ` pattern (no adjustment is applied on output).
In Python 2, `datetime.strftime` raises `ValueError` for any year before
1900 ("years before 1900 cannot be used"); that error path is `none`. -/
def print_time (t : Int) : Option String :=
  if (fromSecs t.toNat).y < 1900 then none
  else some ⟨formatChars (fromSecs t.toNat)⟩

/-- `Event._parse_time` (lines 53-59): parse an iCalendar style datetime as a
UTC instant and add `timedelta(hours=adjust)`.  (`OverflowError` at the
extreme ends of the `datetime` range is not modelled.) -/
def parse_time (adjust : Int) (v : String) : Option Int :=
  (strptimeZ v.data).map (fun f => (toSecs f : Int) + 3600 * adjust)

theorem daysInYear_pos (y : Nat) : 0 < daysInYear y := by
  unfold daysInYear
  split <;> omega

theorem daysInYear_ge (y : Nat) : 365 ≤ daysInYear y := by
  unfold daysInYear
  split <;> omega

theorem le_yearsSum (k : Nat) : 365 * k ≤ yearsSum k := by
  induction k with
  | zero => simp [yearsSum]
  | succ k ih =>
    have := daysInYear_ge (k + 1)
    unfold yearsSum
    omega

theorem yearsSum_mono {a b : Nat} (h : a ≤ b) : yearsSum a ≤ yearsSum b := by
  induction b with
  | zero =>
    have ha : a = 0 := by omega
    subst ha
    exact Nat.le_refl _
  | succ b ih =>
    rcases Nat.lt_or_ge a (b + 1) with hb | hb
    · have h1 := ih (by omega)
      have h2 : yearsSum (b + 1) = yearsSum b + daysInYear (b + 1) := rfl
      omega
    · have ha : a = b + 1 := by omega
      subst ha
      exact Nat.le_refl _

theorem yearsSum_lt {a b : Nat} (h : a < b) : yearsSum a < yearsSum b := by
  have h1 : yearsSum (a + 1) = yearsSum a + daysInYear (a + 1) := rfl
  have h2 := daysInYear_pos (a + 1)
  have h3 := yearsSum_mono (show a + 1 ≤ b by omega)
  omega

theorem goYear_correct (fuel : Nat) : ∀ y n : Nat,
    yearsSum y + n < yearsSum (y + fuel) →
    yearsSum ((goYear fuel (y + 1) n).1 - 1) + (goYear fuel (y + 1) n).2
        = yearsSum y + n ∧
      (goYear fuel (y + 1) n).2 < daysInYear (goYear fuel (y + 1) n).1 ∧
      1 ≤ (goYear fuel (y + 1) n).1 ∧ (goYear fuel (y + 1) n).1 ≤ y + fuel := by
  induction fuel with
  | zero =>
    intro y n h
    simp only [Nat.add_zero] at h
    omega
  | succ fuel ih =>
    intro y n h
    simp only [goYear]
    by_cases hn : n < daysInYear (y + 1)
    · simp only [if_pos hn, Nat.add_sub_cancel]
      refine ⟨trivial, hn, by omega, by omega⟩
    · simp only [if_neg hn]
      have hs : yearsSum (y + 1) = yearsSum y + daysInYear (y + 1) := rfl
      have hss : yearsSum (y + 1 + fuel) = yearsSum (y + (fuel + 1)) := by
        congr 1
        omega
      have hrec := ih (y + 1) (n - daysInYear (y + 1)) (by omega)
      omega

/-- Specialization of `goYear_correct` to the call `fromSecs` makes: starting
at year 1 with fuel `n / 365 + 1`. -/
theorem yearFromDays_correct (n : Nat) :
    yearsSum ((goYear (n / 365 + 1) 1 n).1 - 1) + (goYear (n / 365 + 1) 1 n).2 = n ∧
      (goYear (n / 365 + 1) 1 n).2 < daysInYear (goYear (n / 365 + 1) 1 n).1 ∧
      1 ≤ (goYear (n / 365 + 1) 1 n).1 ∧
      (goYear (n / 365 + 1) 1 n).1 ≤ n / 365 + 1 := by
  have h0 : yearsSum 0 = 0 := rfl
  have hle := le_yearsSum (n / 365 + 1)
  have h := goYear_correct (n / 365 + 1) 0 n (by rw [h0, Nat.zero_add, Nat.zero_add]; omega)
  rw [Nat.zero_add, Nat.zero_add, h0, Nat.zero_add] at h
  exact h

theorem splitMonths_correct : ∀ (ls : List Nat) (m doy : Nat), doy < ls.sum →
    m ≤ (splitMonths ls m doy).1 ∧
      (splitMonths ls m doy).1 - m < ls.length ∧
      (ls.take ((splitMonths ls m doy).1 - m)).sum + ((splitMonths ls m doy).2 - 1)
        = doy ∧
      1 ≤ (splitMonths ls m doy).2 ∧
      (splitMonths ls m doy).2 ≤ ls.getD ((splitMonths ls m doy).1 - m) 0 := by
  intro ls
  induction ls with
  | nil =>
    intro m doy h
    simp [List.sum_nil] at h
  | cons len rest ih =>
    intro m doy h
    by_cases hd : doy < len
    · simp only [splitMonths, if_pos hd]
      simp only [Nat.sub_self, List.take_zero, List.sum_nil, List.length_cons,
        List.getD_cons_zero]
      omega
    · simp only [splitMonths, if_neg hd]
      have hsum : doy - len < rest.sum := by
        simp only [List.sum_cons] at h
        omega
      have hrec := ih (m + 1) (doy - len) hsum
      obtain ⟨k, hk⟩ : ∃ k, (splitMonths rest (m + 1) (doy - len)).1 - m = k + 1 :=
        ⟨(splitMonths rest (m + 1) (doy - len)).1 - m - 1, by omega⟩
      have hk2 : (splitMonths rest (m + 1) (doy - len)).1 - (m + 1) = k := by omega
      rw [hk2] at hrec
      constructor
      · omega
      refine ⟨by simp only [List.length_cons]; omega, ?_, by omega, ?_⟩
      · rw [hk, List.take_succ_cons, List.sum_cons]
        omega
      · rw [hk, List.getD_cons_succ]
        exact hrec.2.2.2.2

theorem monthLens_length (leap : Bool) : (monthLens leap).length = 12 := by
  cases leap <;> rfl

theorem monthLens_sum (y : Nat) : (monthLens (isLeap y)).sum = daysInYear y := by
  unfold daysInYear
  cases h : isLeap y <;> simp [monthLens]

/-- `fromSecs` inverts `toSecs` and produces calendar fields in the ranges
the `datetime` constructor accepts. -/
theorem fromSecs_spec (t : Nat) :
    toSecs (fromSecs t) = t ∧ 1 ≤ (fromSecs t).y ∧
      1 ≤ (fromSecs t).mo ∧ (fromSecs t).mo ≤ 12 ∧ 1 ≤ (fromSecs t).d ∧
      (fromSecs t).d ≤ (monthLens (isLeap (fromSecs t).y)).getD ((fromSecs t).mo - 1) 0 ∧
      (fromSecs t).h ≤ 23 ∧ (fromSecs t).mi ≤ 59 ∧ (fromSecs t).s ≤ 59 := by
  obtain ⟨h1, h2, h3, h4⟩ := yearFromDays_correct (t / 86400)
  set p := goYear (t / 86400 / 365 + 1) 1 (t / 86400) with hp
  obtain ⟨m1, m2, m3, m4, m5⟩ :=
    splitMonths_correct (monthLens (isLeap p.1)) 1 p.2 (by rw [monthLens_sum]; exact h2)
  set q := splitMonths (monthLens (isLeap p.1)) 1 p.2 with hq
  rw [monthLens_length] at m2
  have hfrom : fromSecs t = ⟨p.1, q.1, q.2, t % 86400 / 3600,
      t % 86400 % 3600 / 60, t % 86400 % 60⟩ := rfl
  rw [hfrom]
  unfold toSecs
  dsimp only
  refine ⟨?_, h3, by omega, by omega, by omega, by omega, by omega, by omega, by omega⟩
  omega

/-- With `t` below the `datetime` range bound, the extracted year is at most
9999. -/
theorem fromSecs_year_le (t : Nat) (h : t < maxSecs) : (fromSecs t).y ≤ 9999 := by
  obtain ⟨h1, h2, h3, h4⟩ := yearFromDays_correct (t / 86400)
  have hyy : (fromSecs t).y = (goYear (t / 86400 / 365 + 1) 1 (t / 86400)).1 := rfl
  rw [hyy]
  by_contra hy
  have hmono : yearsSum 9999 ≤
      yearsSum ((goYear (t / 86400 / 365 + 1) 1 (t / 86400)).1 - 1) :=
    yearsSum_mono (by omega)
  have hms : maxSecs = yearsSum 9999 * 86400 := rfl
  omega

/-- With `t` at or beyond 1900-01-01, the extracted year is at least 1900
(so `strftime` accepts it). -/
theorem fromSecs_year_ge (t : Nat) (h : minFmtSecs ≤ t) :
    1900 ≤ (fromSecs t).y := by
  obtain ⟨h1, h2, h3, h4⟩ := yearFromDays_correct (t / 86400)
  have hyy : (fromSecs t).y = (goYear (t / 86400 / 365 + 1) 1 (t / 86400)).1 := rfl
  rw [hyy]
  by_contra hy
  push_neg at hy
  obtain ⟨y2, hy2⟩ : ∃ y2,
      (goYear (t / 86400 / 365 + 1) 1 (t / 86400)).1 = y2 + 1 :=
    ⟨(goYear (t / 86400 / 365 + 1) 1 (t / 86400)).1 - 1, by omega⟩
  rw [hy2] at h1 h2
  simp only [Nat.add_sub_cancel] at h1
  have hsucc : yearsSum (y2 + 1) = yearsSum y2 + daysInYear (y2 + 1) := rfl
  have hmono : yearsSum (y2 + 1) ≤ yearsSum 1899 := yearsSum_mono (by omega)
  have hms : minFmtSecs = yearsSum 1899 * 86400 := rfl
  omega

theorem monthLens_getD_le (leap : Bool) (i : Nat) :
    (monthLens leap).getD i 0 ≤ 31 := by
  cases leap <;>
    rcases i with _|_|_|_|_|_|_|_|_|_|_|_|i <;>
      simp [monthLens, List.getD]

theorem dVal_dChar : ∀ d : Nat, d < 10 → dVal (dChar d) = d := by decide

theorem isDigit_dChar : ∀ d : Nat, d < 10 → (dChar d).isDigit = true := by decide

/-- Parsing inverts formatting on any field bundle the `datetime` constructor
accepts. -/
theorem strptimeZ_formatChars (f : DT) (hy1 : 1 ≤ f.y) (hy2 : f.y ≤ 9999)
    (hmo1 : 1 ≤ f.mo) (hmo2 : f.mo ≤ 12) (hd1 : 1 ≤ f.d)
    (hd2 : f.d ≤ (monthLens (isLeap f.y)).getD (f.mo - 1) 0)
    (hh : f.h ≤ 23) (hmi : f.mi ≤ 59) (hs : f.s ≤ 59) :
    strptimeZ (formatChars f) = some f := by
  obtain ⟨y, mo, d, h, mi, s⟩ := f
  simp only at hy1 hy2 hmo1 hmo2 hd1 hd2 hh hmi hs
  have hfc : formatChars ⟨y, mo, d, h, mi, s⟩ =
      [dChar (y / 1000 % 10), dChar (y / 100 % 10), dChar (y / 10 % 10),
       dChar (y % 10), dChar (mo / 10 % 10), dChar (mo % 10),
       dChar (d / 10 % 10), dChar (d % 10), 'T',
       dChar (h / 10 % 10), dChar (h % 10), dChar (mi / 10 % 10),
       dChar (mi % 10), dChar (s / 10 % 10), dChar (s % 10), 'Z'] := rfl
  rw [hfc]
  unfold strptimeZ
  have hdig : ([dChar (y / 1000 % 10), dChar (y / 100 % 10), dChar (y / 10 % 10),
      dChar (y % 10), dChar (mo / 10 % 10), dChar (mo % 10),
      dChar (d / 10 % 10), dChar (d % 10),
      dChar (h / 10 % 10), dChar (h % 10), dChar (mi / 10 % 10),
      dChar (mi % 10), dChar (s / 10 % 10), dChar (s % 10)].all
        Char.isDigit) = true := by
    simp only [List.all_cons, List.all_nil, Bool.and_eq_true]
    and_intros <;>
      first
        | exact isDigit_dChar _ (Nat.mod_lt _ (by norm_num))
        | trivial
  dsimp only
  rw [if_pos ⟨rfl, rfl, hdig⟩]
  have hyv : dVal (dChar (y / 1000 % 10)) * 1000 + dVal (dChar (y / 100 % 10)) * 100
      + dVal (dChar (y / 10 % 10)) * 10 + dVal (dChar (y % 10)) = y := by
    rw [dVal_dChar _ (Nat.mod_lt _ (by norm_num)),
      dVal_dChar _ (Nat.mod_lt _ (by norm_num)),
      dVal_dChar _ (Nat.mod_lt _ (by norm_num)),
      dVal_dChar _ (Nat.mod_lt _ (by norm_num))]
    omega
  have h2v : ∀ x : Nat, x ≤ 99 →
      dVal (dChar (x / 10 % 10)) * 10 + dVal (dChar (x % 10)) = x := by
    intro x hx
    rw [dVal_dChar _ (Nat.mod_lt _ (by norm_num)),
      dVal_dChar _ (Nat.mod_lt _ (by norm_num))]
    omega
  have hg := monthLens_getD_le (isLeap y) (mo - 1)
  simp only [hyv, h2v mo (by omega), h2v d (by omega), h2v h (by omega),
    h2v mi (by omega), h2v s (by omega)]
  rw [if_pos ⟨hy1, hmo1, hmo2, hd1, hd2, hh, hmi, hs⟩]

/-- On the instants the program can format — `strftime` accepts the year
(1900 ≤ year, i.e. `minFmtSecs ≤ t`) and the `datetime` exists
(`t < maxSecs`) — decoding the encoded string adds exactly the adjustment. -/
theorem parse_print_shift (t adjust : Int) (h0 : (minFmtSecs : Int) ≤ t)
    (h1 : t < (maxSecs : Int)) :
    (print_time t).bind (parse_time adjust) = some (t + 3600 * adjust) := by
  have hc : (0 : Int) ≤ (minFmtSecs : Int) := Int.ofNat_nonneg _
  have hge := fromSecs_year_ge t.toNat (by omega)
  unfold print_time
  rw [if_neg (by omega)]
  simp only [Option.some_bind]
  unfold parse_time
  have hdata : (⟨formatChars (fromSecs t.toNat)⟩ : String).data
      = formatChars (fromSecs t.toNat) := rfl
  rw [hdata]
  obtain ⟨ht, hy1, hmo1, hmo2, hd1, hd2, hh, hmi, hs⟩ := fromSecs_spec t.toNat
  have hy2 := fromSecs_year_le t.toNat (by omega)
  rw [strptimeZ_formatChars _ hy1 hy2 hmo1 hmo2 hd1 hd2 hh hmi hs]
  simp only [Option.map_some']
  congr 1
  rw [ht]
  omega

/-- C3 (amended): for every instant the program can format (year 1900-9999;
Python 2's `strftime` raises `ValueError` below 1900), encoding `t` with
`_print_time` and decoding the resulting `YYYYMMDDTHHMMSSZ` string with
`_parse_time` (holding the fixed adjustment constant) yields `t` shifted
forward by the adjustment — exactly the original instant when and only when
the adjustment is zero. -/
theorem parse_time_print_time (t adjust : Int) (h0 : (minFmtSecs : Int) ≤ t)
    (h1 : t < (maxSecs : Int)) :
    (print_time t).bind (parse_time adjust) = some (t + 3600 * adjust) :=
  parse_print_shift t adjust h0 h1

/-- C3 (witness): the instant 1900-01-01 00:00:00, with a negative one-hour
adjustment, decodes to one hour before itself. -/
theorem parse_time_print_time_witness :
    (print_time ((minFmtSecs : Nat) : Int)).bind (parse_time (-1))
      = some (((minFmtSecs : Nat) : Int) + 3600 * (-1)) :=
  parse_time_print_time ((minFmtSecs : Nat) : Int) (-1) (le_refl _) (by
    have h := yearsSum_lt (show 1899 < 9999 by omega)
    have hms : maxSecs = yearsSum 9999 * 86400 := rfl
    have hmf : minFmtSecs = yearsSum 1899 * 86400 := rfl
    omega)

/-- C3 (counterexample): with adjustment `1`, the instant
1900-01-01 00:00:00 (the earliest `strftime` can format) encodes to
`"19000101T000000Z"` but decodes to one hour later, not back to itself: the
encode-then-decode round trip is not the identity for a non-zero
adjustment. -/
theorem parse_print_not_identity :
    (print_time ((minFmtSecs : Nat) : Int)).bind (parse_time 1)
        = some (((minFmtSecs : Nat) : Int) + 3600 * 1) ∧
      (print_time ((minFmtSecs : Nat) : Int)).bind (parse_time 1)
        ≠ some ((minFmtSecs : Nat) : Int) := by
  have h := parse_print_shift ((minFmtSecs : Nat) : Int) 1 (le_refl _) (by
    have h2 := yearsSum_lt (show 1899 < 9999 by omega)
    have hms : maxSecs = yearsSum 9999 * 86400 := rfl
    have hmf : minFmtSecs = yearsSum 1899 * 86400 := rfl
    omega)
  refine ⟨h, ?_⟩
  rw [h]
  intro hc
  injection hc with hc
  omega

/-! ### Calendar Parser (`Aggregator._parse_ical`, icalaggregator.py
lines 236-265) -/

/-- `replace('\\,', ',')`: un-escape backslash-escaped commas, scanning left
to right over non-overlapping occurrences as Python `str.replace` does. -/
def unescapeCommas : List Char → List Char
  | '\\' :: ',' :: rest => ',' :: unescapeCommas rest
  | c :: rest => c :: unescapeCommas rest
  | [] => []

/-- `l[8:].replace('\\,', ',')` on the string level. -/
def pyReplaceEscComma (s : String) : String :=
  ⟨unescapeCommas s.data⟩

/-- A freshly constructed `Event` (all fields `None`). -/
def emptyEvent : Event :=
  ⟨none, none, none, none⟩

/-- One run of the `while True` loop of `Aggregator._parse_ical`
(lines 243-265), fuel-driven (each iteration consumes at least one physical
line from the reader state).  `curr` is `currevent` and `acc` the events
yielded so far; the returned errors model the exceptions raised, including
the `AttributeError` from touching `currevent = None` and the `ValueError`
from a malformed timestamp. -/
def parseGo (tz : Int → Int) (adjust : Int) :
    Nat → List String → Option Event → List Event → Except String (List Event)
  | 0, _, _, _ => .error "out of fuel"
  | fuel + 1, lines, curr, acc =>
    match readline lines with
    | (none, _) => .error "End of stream"
    | (some l, rest) =>
      if l = "" then .error "End of stream"
      else if l = "END:VCALENDAR" then .ok acc
      else if l = "BEGIN:VEVENT" then
        match curr with
        | some _ => .error "Recursive events?!"
        | none => parseGo tz adjust fuel rest (some emptyEvent) acc
      else if l = "END:VEVENT" then
        match curr with
        | none => .error "End of nonexisting event?!"
        | some e =>
          match e.validate tz with
          | .error msg => .error msg
          | .ok () => parseGo tz adjust fuel rest none (acc ++ [e])
      else if pyStartswith l "DTSTART:" then
        match curr with
        | none => .error "AttributeError"
        | some e =>
          match parse_time adjust (pyDrop l 8) with
          | none => .error "ValueError"
          | some t => parseGo tz adjust fuel rest (some { e with start := some t }) acc
      else if pyStartswith l "DTEND:" then
        match curr with
        | none => .error "AttributeError"
        | some e =>
          match parse_time adjust (pyDrop l 6) with
          | none => .error "ValueError"
          | some t => parseGo tz adjust fuel rest (some { e with end_ := some t }) acc
      else if pyStartswith l "SUMMARY:" then
        match curr with
        | none => .error "AttributeError"
        | some e => parseGo tz adjust fuel rest
            (some { e with summary := some (pyReplaceEscComma (pyDrop l 8)) }) acc
      else parseGo tz adjust fuel rest curr acc

/-- `Aggregator._parse_ical` run to completion, as `pull_all` consumes it:
the fuel bound is enough for every physical line plus the final
end-of-input probe. -/
def parseIcal (tz : Int → Int) (adjust : Int) (raws : List String) :
    Except String (List Event) :=
  parseGo tz adjust (raws.length + 1) (mkReader raws) none []

/-- The display timezone used in concrete runs below: UTC (offset 0
everywhere). -/
def utcOffset : Int → Int := fun _ => 0

theorem startswith_ne {l m pre : String} (h1 : pyStartswith l pre = true)
    (h2 : pyStartswith m pre = false) : l ≠ m := by
  intro he
  subst he
  rw [h1] at h2
  cases h2

theorem dtend_not_dtstart (l : String) (h : pyStartswith l "DTEND:" = true) :
    pyStartswith l "DTSTART:" = false := by
  unfold pyStartswith at h ⊢
  rcases hl : l.data with _ | ⟨c1, _ | ⟨c2, _ | ⟨c3, t⟩⟩⟩ <;>
    rw [hl] at h <;> simp_all [List.isPrefixOf, String.data]
  intro h1 h2
  subst h1 h2
  intro hc
  subst hc
  simp at h

theorem summary_not_dtstart (l : String) (h : pyStartswith l "SUMMARY:" = true) :
    pyStartswith l "DTSTART:" = false := by
  unfold pyStartswith at h ⊢
  rcases hl : l.data with _ | ⟨c1, t⟩ <;>
    rw [hl] at h <;> simp_all [List.isPrefixOf, String.data]
  intro hc
  subst hc
  simp at h

theorem summary_not_dtend (l : String) (h : pyStartswith l "SUMMARY:" = true) :
    pyStartswith l "DTEND:" = false := by
  unfold pyStartswith at h ⊢
  rcases hl : l.data with _ | ⟨c1, t⟩ <;>
    rw [hl] at h <;> simp_all [List.isPrefixOf, String.data]
  intro hc
  subst hc
  simp at h

/-- C6 (amended): a consumed logical line that is none of the three markers
and carries none of the three known property prefixes is ignored without
error and parsing continues with unchanged state — *except* the empty
logical line, which `if not l` conflates with end of input and which
therefore raises the fatal end-of-stream error instead of being ignored. -/
theorem parse_ignores_unknown_lines (tz : Int → Int) (adjust : Int)
    (fuel : Nat) (lines rest : List String) (l : String)
    (curr : Option Event) (acc : List Event)
    (hr : readline lines = (some l, rest)) :
    (l ≠ "" → l ≠ "END:VCALENDAR" → l ≠ "BEGIN:VEVENT" → l ≠ "END:VEVENT" →
      pyStartswith l "DTSTART:" = false → pyStartswith l "DTEND:" = false →
      pyStartswith l "SUMMARY:" = false →
      parseGo tz adjust (fuel + 1) lines curr acc
        = parseGo tz adjust fuel rest curr acc) ∧
    (l = "" →
      parseGo tz adjust (fuel + 1) lines curr acc = .error "End of stream") := by
  constructor
  · intro h1 h2 h3 h4 h5 h6 h7
    simp only [parseGo, hr]
    rw [if_neg h1, if_neg h2, if_neg h3, if_neg h4,
      if_neg (by simp [h5]), if_neg (by simp [h6]), if_neg (by simp [h7])]
  · intro h1
    subst h1
    simp only [parseGo, hr]
    simp

/-- C6 (witness for the amended theorem): an unknown property line is
skipped; the concrete states before and after agree. -/
theorem parse_ignores_unknown_lines_witness :
    ("X-WR-CALNAME:rooms" ≠ "" → "X-WR-CALNAME:rooms" ≠ "END:VCALENDAR" →
      "X-WR-CALNAME:rooms" ≠ "BEGIN:VEVENT" → "X-WR-CALNAME:rooms" ≠ "END:VEVENT" →
      pyStartswith "X-WR-CALNAME:rooms" "DTSTART:" = false →
      pyStartswith "X-WR-CALNAME:rooms" "DTEND:" = false →
      pyStartswith "X-WR-CALNAME:rooms" "SUMMARY:" = false →
      parseGo utcOffset 0 2 ["X-WR-CALNAME:rooms"] none []
        = parseGo utcOffset 0 1 [] none []) ∧
    ("X-WR-CALNAME:rooms" = "" →
      parseGo utcOffset 0 2 ["X-WR-CALNAME:rooms"] none []
        = .error "End of stream") :=
  parse_ignores_unknown_lines utcOffset 0 1 ["X-WR-CALNAME:rooms"] []
    "X-WR-CALNAME:rooms" none [] (by decide)

/-- C6 (counterexample): an empty logical line (a blank physical line) is not
ignored: `if not l` treats it like end of input, so the whole parse fails
with the end-of-stream error instead of reaching `END:VCALENDAR`. -/
theorem parse_empty_line_cex :
    parseIcal utcOffset 0 ["", "END:VCALENDAR"] = .error "End of stream" ∧
      parseIcal utcOffset 0 ["END:VCALENDAR"] = .ok [] ∧
      parseIcal utcOffset 0 ["", "END:VCALENDAR"]
        ≠ parseIcal utcOffset 0 ["END:VCALENDAR"] := by
  refine ⟨rfl, rfl, fun h => Except.noConfusion h⟩

/-- C8: `BEGIN:VEVENT` with an event already open is a fatal structural
error; `END:VEVENT` with no open event is a fatal structural error;
`END:VCALENDAR` terminates parsing successfully (yielding the events so far)
whether or not an event is open; and exhausting the input raises the fatal
end-of-stream error. -/
theorem parser_structure (tz : Int → Int) (adjust : Int) :
    (∀ (fuel : Nat) (lines rest : List String) (e : Event) (acc : List Event),
       readline lines = (some "BEGIN:VEVENT", rest) →
       parseGo tz adjust (fuel + 1) lines (some e) acc
         = .error "Recursive events?!") ∧
    (∀ (fuel : Nat) (lines rest : List String) (acc : List Event),
       readline lines = (some "END:VEVENT", rest) →
       parseGo tz adjust (fuel + 1) lines none acc
         = .error "End of nonexisting event?!") ∧
    (∀ (fuel : Nat) (lines rest : List String) (curr : Option Event)
       (acc : List Event),
       readline lines = (some "END:VCALENDAR", rest) →
       parseGo tz adjust (fuel + 1) lines curr acc = .ok acc) ∧
    (∀ (fuel : Nat) (curr : Option Event) (acc : List Event),
       parseGo tz adjust (fuel + 1) [] curr acc = .error "End of stream") := by
  refine ⟨?_, ?_, ?_, ?_⟩
  · intro fuel lines rest e acc hr
    simp only [parseGo, hr]
    simp
  · intro fuel lines rest acc hr
    simp only [parseGo, hr]
    simp
  · intro fuel lines rest curr acc hr
    simp only [parseGo, hr]
    simp
  · intro fuel curr acc
    simp only [parseGo, readline]

/-- C8 (witness): the four behaviors on concrete parser states. -/
theorem parser_structure_witness :
    parseGo utcOffset 0 1 ["BEGIN:VEVENT"] (some emptyEvent) []
        = .error "Recursive events?!" ∧
      parseGo utcOffset 0 1 ["END:VEVENT"] none [] = .error "End of nonexisting event?!" ∧
      parseGo utcOffset 0 1 ["END:VCALENDAR"] (some emptyEvent) [] = .ok [] ∧
      parseGo utcOffset 0 1 [] none [] = .error "End of stream" :=
  ⟨(parser_structure utcOffset 0).1 0 ["BEGIN:VEVENT"] [] emptyEvent [] (by decide),
   (parser_structure utcOffset 0).2.1 0 ["END:VEVENT"] [] [] (by decide),
   (parser_structure utcOffset 0).2.2.1 0 ["END:VCALENDAR"] [] (some emptyEvent) []
     (by decide),
   (parser_structure utcOffset 0).2.2.2 0 none []⟩

/-- C10: a `DTSTART:`/`DTEND:`/`SUMMARY:` line with no event open is not
silently ignored: the code reaches `currevent.setstart(...)` (resp.
`setend`/`summary`) with `currevent = None`, which fails fatally
(`AttributeError`), aborting the whole parse. -/
theorem property_line_without_event (tz : Int → Int) (adjust : Int)
    (fuel : Nat) (lines rest : List String) (l : String) (acc : List Event)
    (hr : readline lines = (some l, rest))
    (hp : pyStartswith l "DTSTART:" = true ∨ pyStartswith l "DTEND:" = true ∨
      pyStartswith l "SUMMARY:" = true) :
    parseGo tz adjust (fuel + 1) lines none acc = .error "AttributeError" := by
  have hne : l ≠ "" ∧ l ≠ "END:VCALENDAR" ∧ l ≠ "BEGIN:VEVENT" ∧ l ≠ "END:VEVENT" := by
    rcases hp with h | h | h <;>
      exact ⟨startswith_ne h (by decide), startswith_ne h (by decide),
        startswith_ne h (by decide), startswith_ne h (by decide)⟩
  obtain ⟨h1, h2, h3, h4⟩ := hne
  simp only [parseGo, hr]
  rw [if_neg h1, if_neg h2, if_neg h3, if_neg h4]
  rcases hp with h | h | h
  · rw [if_pos h]
  · rw [if_neg (by simp [dtend_not_dtstart l h]), if_pos h]
  · rw [if_neg (by simp [summary_not_dtstart l h]),
      if_neg (by simp [summary_not_dtend l h]), if_pos h]

/-- C10 (witness): a `DTSTART:` line in the idle state aborts the parse. -/
theorem property_line_without_event_witness :
    parseGo utcOffset 0 1 ["DTSTART:00010101T090000Z"] none []
      = .error "AttributeError" :=
  property_line_without_event utcOffset 0 0 ["DTSTART:00010101T090000Z"] []
    "DTSTART:00010101T090000Z" [] (by decide) (Or.inl (by decide))

/-! ### Aggregation and sorting (`Aggregator.pull_all`, icalaggregator.py
lines 129-139, with `compare_events`, lines 70-76) -/

/-- `event.location = feed` tagging inside the `pull_all` loop. -/
def tagLocation (nm : String) (e : Event) : Event :=
  { e with location := some nm }

/-- The collection phase of `pull_all` (lines 134-138): for every registered
feed in order, parse its stream, tag every resulting event with the feed
name, and append to the global list.  Any parse failure aborts the whole
run.  Fetching bytes from the URL is the excluded external collaborator, so
a feed is its name together with the text lines it yields. -/
def collectAll (tz : Int → Int) (adjust : Int) :
    List (String × List String) → Except String (List Event)
  | [] => .ok []
  | (nm, content) :: rest =>
    match parseIcal tz adjust content with
    | .error e => .error e
    | .ok evs =>
      match collectAll tz adjust rest with
      | .error e => .error e
      | .ok tail => .ok (evs.map (tagLocation nm) ++ tail)

/-- Insert an event into a list ordered by `compare_events`, before the first
element it is ≤ to; this is where a stable sort puts a maximal-position
equal element. -/
def ordIns (x : Event) : List Event → List Event
  | [] => [x]
  | y :: ys => if evLe x y then x :: y :: ys else y :: ordIns x ys

/-- `self.events.sort(compare_events)` (line 139).  Python's `list.sort` is a
stable sort, and the output of a stable sort under a total preorder is
uniquely determined, so the straightforward stable insertion sort models
it exactly. -/
def sortEvents : List Event → List Event
  | [] => []
  | x :: xs => ordIns x (sortEvents xs)

/-- `Aggregator.pull_all` (lines 129-139): collect every feed in
registration order, then sort the global event list by start. -/
def pullAll (tz : Int → Int) (adjust : Int)
    (feeds : List (String × List String)) : Except String (List Event) :=
  match collectAll tz adjust feeds with
  | .error e => .error e
  | .ok evs => .ok (sortEvents evs)

theorem optLe_total (a b : Option Int) : optLe a b = true ∨ optLe b a = true := by
  rcases a with _ | x <;> rcases b with _ | y <;> simp [optLe] <;> omega

theorem optLe_trans {a b c : Option Int} (h1 : optLe a b = true)
    (h2 : optLe b c = true) : optLe a c = true := by
  rcases a with _ | x <;> rcases b with _ | y <;> rcases c with _ | z <;>
    simp_all [optLe] <;> omega

theorem mem_ordIns {z x : Event} : ∀ l : List Event,
    z ∈ ordIns x l → z = x ∨ z ∈ l := by
  intro l
  induction l with
  | nil => simp [ordIns]
  | cons y ys ih =>
    simp only [ordIns]
    split
    · intro h
      rcases List.mem_cons.mp h with h | h
      · exact Or.inl h
      · exact Or.inr h
    · intro h
      rcases List.mem_cons.mp h with h | h
      · exact Or.inr (by simp [h])
      · rcases ih h with h | h
        · exact Or.inl h
        · exact Or.inr (by simp [h])

theorem pairwise_ordIns (x : Event) : ∀ l : List Event,
    List.Pairwise (fun a b => evLe a b = true) l →
    List.Pairwise (fun a b => evLe a b = true) (ordIns x l) := by
  intro l
  induction l with
  | nil =>
    intro _
    simp [ordIns]
  | cons y ys ih =>
    intro h
    obtain ⟨hy, hys⟩ := List.pairwise_cons.mp h
    simp only [ordIns]
    split
    · rename_i hxy
      refine List.pairwise_cons.mpr ⟨?_, h⟩
      intro z hz
      rcases List.mem_cons.mp hz with hz | hz
      · subst hz; exact hxy
      · exact optLe_trans hxy (hy z hz)
    · rename_i hxy
      refine List.pairwise_cons.mpr ⟨?_, ih hys⟩
      intro z hz
      rcases mem_ordIns _ hz with hz | hz
      · rw [hz]
        rcases optLe_total x.start y.start with ht | ht
        · exact absurd ht hxy
        · exact ht
      · exact hy z hz

theorem sorted_sortEvents : ∀ l : List Event,
    List.Pairwise (fun a b => evLe a b = true) (sortEvents l) := by
  intro l
  induction l with
  | nil => simp [sortEvents]
  | cons x xs ih => exact pairwise_ordIns x _ ih

theorem filter_ordIns (v : Option Int) (x : Event) : ∀ l : List Event,
    (ordIns x l).filter (fun e => decide (e.start = v)) =
      if x.start = v then x :: l.filter (fun e => decide (e.start = v))
      else l.filter (fun e => decide (e.start = v)) := by
  intro l
  induction l with
  | nil =>
    by_cases hx : x.start = v
    · simp [ordIns, List.filter_cons, hx]
    · simp [ordIns, List.filter_cons, hx]
  | cons y ys ih =>
    simp only [ordIns]
    by_cases hxy : evLe x y = true
    · rw [if_pos hxy]
      by_cases hx : x.start = v
      · simp [List.filter_cons, hx]
      · simp [List.filter_cons, hx]
    · rw [if_neg hxy]
      by_cases hx : x.start = v
      · have hy : ¬ (y.start = v) := by
          intro hyv
          apply hxy
          unfold evLe
          rw [hx, hyv]
          rcases v with _ | a
          · rfl
          · simp [optLe]
        simp [List.filter_cons, ih, hx, hy]
      · simp [List.filter_cons, ih, hx]

theorem filter_sortEvents (v : Option Int) : ∀ l : List Event,
    (sortEvents l).filter (fun e => decide (e.start = v)) =
      l.filter (fun e => decide (e.start = v)) := by
  intro l
  induction l with
  | nil => rfl
  | cons x xs ih =>
    simp only [sortEvents, filter_ordIns]
    by_cases hx : x.start = v
    · rw [if_pos hx, ih, List.filter_cons]
      simp [hx]
    · rw [if_neg hx, ih, List.filter_cons]
      simp [hx]

/-- C7: after `pull_all()` the event list is sorted ascending by `start`
(for `i < j`, `events[i].start <= events[j].start`), and events with equal
start keep their pre-sort relative order — the order of `collectAll`, which
is feed-registration order followed by in-feed document order. -/
theorem pullAll_sorted_stable (tz : Int → Int) (adjust : Int)
    (feeds : List (String × List String)) (evs : List Event)
    (h : pullAll tz adjust feeds = .ok evs) :
    (∀ (i j : Nat) (hi : i < evs.length) (hj : j < evs.length), i < j →
       evLe (evs.get ⟨i, hi⟩) (evs.get ⟨j, hj⟩) = true) ∧
      ∃ pre, collectAll tz adjust feeds = .ok pre ∧ evs = sortEvents pre ∧
        ∀ v : Option Int,
          evs.filter (fun e => decide (e.start = v)) =
            pre.filter (fun e => decide (e.start = v)) := by
  unfold pullAll at h
  cases hc : collectAll tz adjust feeds with
  | error e =>
    rw [hc] at h
    cases h
  | ok pre =>
    rw [hc] at h
    injection h with h
    subst h
    constructor
    · intro i j hi hj hij
      exact List.pairwise_iff_get.mp (sorted_sortEvents pre) ⟨i, hi⟩ ⟨j, hj⟩ hij
    · exact ⟨pre, rfl, rfl, fun v => filter_sortEvents v pre⟩

/-- The feed of the room whose single event starts at 10:00. -/
def feedRoomA : String × List String :=
  ("RoomA", ["BEGIN:VCALENDAR", "BEGIN:VEVENT", "DTSTART:00010101T100000Z",
    "DTEND:00010101T110000Z", "SUMMARY:Second", "END:VEVENT", "END:VCALENDAR"])

/-- The feed of the room whose single event starts at 09:00. -/
def feedRoomB : String × List String :=
  ("RoomB", ["BEGIN:VCALENDAR", "BEGIN:VEVENT", "DTSTART:00010101T090000Z",
    "DTEND:00010101T100000Z", "SUMMARY:First", "END:VEVENT", "END:VCALENDAR"])

/-- C7 (witness): pulling the two concrete feeds yields the two events in
start order even though the later-starting one came from the earlier feed. -/
theorem pullAll_sorted_stable_witness :
    (∀ (i j : Nat)
       (hi : i < ([⟨some "First", some 32400, some 36000, some "RoomB"⟩,
         ⟨some "Second", some 36000, some 39600, some "RoomA"⟩] : List Event).length)
       (hj : j < ([⟨some "First", some 32400, some 36000, some "RoomB"⟩,
         ⟨some "Second", some 36000, some 39600, some "RoomA"⟩] : List Event).length),
       i < j →
       evLe (([⟨some "First", some 32400, some 36000, some "RoomB"⟩,
           ⟨some "Second", some 36000, some 39600, some "RoomA"⟩] : List Event).get ⟨i, hi⟩)
         (([⟨some "First", some 32400, some 36000, some "RoomB"⟩,
           ⟨some "Second", some 36000, some 39600, some "RoomA"⟩] : List Event).get ⟨j, hj⟩)
         = true) ∧
      ∃ pre, collectAll utcOffset 0 [feedRoomA, feedRoomB] = .ok pre ∧
        ([⟨some "First", some 32400, some 36000, some "RoomB"⟩,
          ⟨some "Second", some 36000, some 39600, some "RoomA"⟩] : List Event)
          = sortEvents pre ∧
        ∀ v : Option Int,
          ([⟨some "First", some 32400, some 36000, some "RoomB"⟩,
            ⟨some "Second", some 36000, some 39600, some "RoomA"⟩] : List Event).filter
              (fun e => decide (e.start = v)) =
            pre.filter (fun e => decide (e.start = v)) :=
  pullAll_sorted_stable utcOffset 0 [feedRoomA, feedRoomB]
    [⟨some "First", some 32400, some 36000, some "RoomB"⟩,
     ⟨some "Second", some 36000, some 39600, some "RoomA"⟩] rfl

/-! ### The per-day emission order in `generate_html` (line 213) -/

/-- Insertion into a list ordered by ascending address. -/
def ordInsAddr (addr : Event → Nat) (x : Event) : List Event → List Event
  | [] => [x]
  | y :: ys => if addr x ≤ addr y then x :: y :: ys else y :: ordInsAddr addr x ys

/-- `sorted(self.events)` at line 213: `Event` defines no comparison methods,
so Python 2's built-in `sorted` falls back to the default comparison, which
for two instances of the same class orders them by memory address (`id`).
`addr` supplies each event's address; the (stable) sort output is the list in
ascending address order. -/
def sortById (addr : Event → Nat) : List Event → List Event
  | [] => []
  | x :: xs => ordInsAddr addr x (sortById addr xs)

/-- The order in which session blocks are emitted for one day
(lines 213-214): iterate `sorted(self.events)` — address order — keeping the
events whose start falls on `day`. -/
def dayBlocksOrder (addr : Event → Nat) (evs : List Event) (day : Int) :
    List Event :=
  (sortById addr evs).filter (fun e => evUtcDate e = some day)

/-- A memory layout in which the later-starting event has the smaller
address. -/
def cexAddr : Event → Nat :=
  fun e => if e.start = some 0 then 2 else 1

/-- C4 (code bug): `sorted(self.events)` sorts `Event` instances by memory
address, not by start, since `Event` defines no comparison methods.  With
the 0s-starting event at address 2 and the 3600s-starting event at
address 1, the blocks for their shared day are emitted with the
later-starting event first, violating the claimed chronological order. -/
theorem sorted_by_id_not_chronological :
    dayBlocksOrder cexAddr [cexLongEvent, cexShortEvent] 0
        = [cexShortEvent, cexLongEvent] ∧
      evLe cexShortEvent cexLongEvent = false := by
  refine ⟨rfl, by decide⟩

end IcalAggregator
